import Mathlib

/-!
Verification development for the `ulog` Go package (github.com/Utsav-56/ulog).

The embedding models Go strings as lists of characters (`GStr`); for the
ASCII data handled by the renderers, Go's byte-oriented `len` coincides with
the character count used here.  Console colouring (the fatih/color
`SprintFunc` wrappers) is modelled as the identity transform, matching the
uncoloured text layout the renderers compute.  The current wall-clock string
produced by `time.Now().Format("15:04:05")` is passed in as an explicit
`timestamp` parameter.  Calls of Go `strings.Repeat` with a negative count
abort the program; the embedding returns `Option` values, with `none`
standing for that abort.
-/

namespace Ulog

/-- Go strings, as lists of characters. -/
abbrev GStr := List Char

/-- Conversion helper for writing `GStr` literals. -/
def gs (s : String) : GStr := s.toList

/-- The character `{` (written by code point to keep it out of literals). -/
def lbrace : Char := Char.ofNat 123

/-- The character `}` (written by code point to keep it out of literals). -/
def rbrace : Char := Char.ofNat 125

/-- Decimal rendering of a Go `int`, as printed by `fmt` verbs `%d` / `%v`. -/
def intChars (n : Int) : GStr := (toString n).toList

/-- Decimal rendering of a non-negative index, as printed by `%d`. -/
def natChars (n : Nat) : GStr := (toString n).toList

/-- Go `strings.Repeat s count`: aborts (`none`) when `count` is negative. -/
def goRepeat (s : GStr) (count : Int) : Option GStr :=
  if count < 0 then none else some (List.flatten (List.replicate count.toNat s))

/-- Go `strings.SplitN s "" 2`: the first character of `s` and the remainder.
(Go returns an empty slice for empty `s`; the call site only splits a
non-empty border string, so that case is never reached.) -/
def goSplitN2 : GStr → GStr × GStr
  | [] => ([], [])
  | c :: rest => ([c], rest)

/-- Concatenation of a list of strings with a separator between consecutive
elements; `joinSep sep [a, b, c] = a ++ sep ++ b ++ sep ++ c`. -/
def joinSep (sep : GStr) : List GStr → GStr
  | [] => []
  | [x] => x
  | x :: xs => x ++ sep ++ joinSep sep xs

/-! ### Box drawing constants (src/unnamed/part_000:12-19) -/

def topLeft : GStr := ['╭']

def topRight : GStr := ['╮']

def bottomLeft : GStr := ['╰']

def bottomRight : GStr := ['╯']

def horizontal : GStr := ['─']

def vertical : GStr := ['│']

/-- Logger configuration (src/unnamed/part_000:33-36). -/
structure Logger where
  showTimestamp : Bool
  padding : Int
deriving DecidableEq

/-- `NewLogger` (src/unnamed/part_000:39-47): padding below 1 is raised to 1. -/
def NewLogger (showTimestamp : Bool) (padding : Int) : Logger :=
  if padding < 1 then
    { showTimestamp := showTimestamp, padding := 1 }
  else
    { showTimestamp := showTimestamp, padding := padding }

/-- The package-wide default Logger (src/unnamed/part_000:50). -/
def DefaultLogger : Logger := NewLogger true 1

/-- The longest-line scan of `formatBox` (src/unnamed/part_000:57-62):
starts from 0 and keeps the larger length. -/
def maxLineLength (lines : List GStr) : Int :=
  lines.foldl
    (fun acc line => if (line.length : Int) > acc then (line.length : Int) else acc) 0

/-- `Logger.formatBox` (src/unnamed/part_000:53-106), decomposed into the
list of lines the Go code writes into its `strings.Builder` (one entry per
`WriteString` call; every entry but the last is written with a trailing
line break, so the built string is these lines joined by a line break).
`none` models the abort inside `strings.Repeat` on a negative count. -/
def Logger.formatBoxLines (l : Logger) (message tag timestamp : GStr) :
    Option (List GStr) :=
  let lines := List.splitOn '\n' message
  let maxLength0 := maxLineLength lines
  -- src:65-69: reserve space for the tag when present
  let maxLength1 :=
    if tag ≠ [] then
      if (tag.length : Int) + 4 > maxLength0 then (tag.length : Int) + 4 else maxLength0
    else maxLength0
  -- src:72: add padding on both sides
  let maxLength := maxLength1 + l.padding * 2
  match goRepeat horizontal maxLength, goRepeat [' '] l.padding with
  | some horiz, some leftPad =>
    -- src:78-85: top border, with the tag spliced in after the first character
    let topBorder := topLeft ++ horiz ++ topRight
    let topLine :=
      if tag ≠ [] then
        let tagDisplay := ' ' :: tag ++ [' ']
        let parts := goSplitN2 topBorder
        parts.1 ++ tagDisplay ++ parts.2
      else topBorder
    -- src:88-93: timestamp line when enabled
    let tsLines : Option (List GStr) :=
      if l.showTimestamp then
        match goRepeat [' '] (maxLength - (timestamp.length : Int)) with
        | some fill => some [vertical ++ leftPad ++ timestamp ++ fill ++ vertical]
        | none => none
      else some []
    -- src:96-100: one padded line per message line
    let msgLines : Option (List GStr) :=
      lines.mapM fun line =>
        match goRepeat [' '] (maxLength - (line.length : Int)) with
        | some fill => some (vertical ++ leftPad ++ line ++ fill ++ vertical)
        | none => none
    match tsLines, msgLines with
    | some tsL, some msgL =>
      -- src:103: bottom border, no tag insertion
      some (topLine :: tsL ++ msgL ++ [bottomLeft ++ horiz ++ bottomRight])
    | _, _ => none
  | _, _ => none

/-- The complete string returned by `Logger.formatBox` (src/unnamed/part_000:105). -/
def Logger.formatBox (l : Logger) (message tag timestamp : GStr) : Option GStr :=
  (l.formatBoxLines message tag timestamp).map (joinSep (gs "\n"))

/-- The `tagStr` extraction shared by every category method
(src/unnamed/part_000:110-113): empty when no tag is supplied, otherwise the
first supplied tag. -/
def tagStrOf (tag : List GStr) : GStr :=
  match tag with
  | [] => []
  | t :: _ => t

/-! ### Category methods (src/unnamed/part_000:109-160); each prints
`formatBox message tagStr colour`, with colour modelled as identity. -/

def Logger.Warning (l : Logger) (message : GStr) (tag : List GStr)
    (timestamp : GStr) : Option GStr :=
  l.formatBox message (tagStrOf tag) timestamp

def Logger.Message (l : Logger) (message : GStr) (tag : List GStr)
    (timestamp : GStr) : Option GStr :=
  l.formatBox message (tagStrOf tag) timestamp

def Logger.Info (l : Logger) (message : GStr) (tag : List GStr)
    (timestamp : GStr) : Option GStr :=
  l.formatBox message (tagStrOf tag) timestamp

def Logger.Error (l : Logger) (message : GStr) (tag : List GStr)
    (timestamp : GStr) : Option GStr :=
  l.formatBox message (tagStrOf tag) timestamp

def Logger.Success (l : Logger) (message : GStr) (tag : List GStr)
    (timestamp : GStr) : Option GStr :=
  l.formatBox message (tagStrOf tag) timestamp

def Logger.Ongoing (l : Logger) (message : GStr) (tag : List GStr)
    (timestamp : GStr) : Option GStr :=
  l.formatBox message (tagStrOf tag) timestamp

/-! ### Package-level convenience functions (src/unnamed/part_000:165-192);
each delegates to the same category method of `DefaultLogger`. -/

def Warning (message : GStr) (tag : List GStr) (timestamp : GStr) : Option GStr :=
  DefaultLogger.Warning message tag timestamp

def Message (message : GStr) (tag : List GStr) (timestamp : GStr) : Option GStr :=
  DefaultLogger.Message message tag timestamp

def Info (message : GStr) (tag : List GStr) (timestamp : GStr) : Option GStr :=
  DefaultLogger.Info message tag timestamp

def Error (message : GStr) (tag : List GStr) (timestamp : GStr) : Option GStr :=
  DefaultLogger.Error message tag timestamp

def Success (message : GStr) (tag : List GStr) (timestamp : GStr) : Option GStr :=
  DefaultLogger.Success message tag timestamp

def Ongoing (message : GStr) (tag : List GStr) (timestamp : GStr) : Option GStr :=
  DefaultLogger.Ongoing message tag timestamp

/-- The content width the spec computes before padding is added: the longest
message line, widened to `tagLength + 4` when a tag is present. -/
def contentWidthOf (message tag : GStr) : Int :=
  max (maxLineLength (List.splitOn '\n' message)) ((tag.length : Int) + 4)

/-! ## Claims about the box renderer -/

/-- C1: refuted on the code.  For the single-line message `hello!` with no
tag, padding 1 and the timestamp disabled, the rendered lines have character
counts 10, 11, 10: the top and bottom borders are equal (10 characters), but
the interior message line has 11 characters, not the claimed
`2*padding + contentWidth + 2 = 2*1 + 6 + 2 = 10` — the code pads each
interior line with `padding` left spaces and then `maxLength - len(line)`
right spaces even though `maxLength` already contains `2*padding`, so every
interior line is `padding` characters longer than the borders. -/
theorem c1_interior_line_length_bug :
    (Logger.formatBoxLines { showTimestamp := false, padding := 1 }
        (gs "hello!") [] (gs "12:34:56")).map (List.map List.length)
      = some [10, 11, 10]
    ∧ maxLineLength (List.splitOn '\n' (gs "hello!")) = 6
    ∧ (11 : Nat) ≠ 2 * 1 + 6 + 2 := by
  decide

/-- C2: refuted on the code.  With the default configuration
(`showTimestamp = true`, `padding = 1`), rendering the two-character message
`hi` with no tag makes the timestamp line call
`strings.Repeat " " (maxLength - len(timestamp)) = strings.Repeat " " (-4)`,
which aborts instead of clamping the negative count to zero: `formatBox` is
not total. -/
theorem c2_short_message_timestamp_abort :
    Logger.formatBox DefaultLogger (gs "hi") [] (gs "12:34:56") = none
    ∧ DefaultLogger = { showTimestamp := true, padding := 1 }
    ∧ goRepeat [' '] (4 - 8) = none := by
  decide

/-- C7: confirmed.  `NewLogger` stores `max padding 1`: padding at least 1 is
kept, anything below 1 is silently raised to 1. -/
theorem c7_padding_clamped (showTimestamp : Bool) (padding : Int) :
    NewLogger showTimestamp padding =
      { showTimestamp := showTimestamp, padding := max padding 1 } := by
  unfold NewLogger
  split <;> simp [Logger.mk.injEq] <;> omega

/-- C8: confirmed.  Each package-level convenience function is definitionally
the corresponding category method of `DefaultLogger`, and `DefaultLogger` is
configured with `showTimestamp = true` and `padding = 1`. -/
theorem c8_default_delegation :
    DefaultLogger = { showTimestamp := true, padding := 1 }
    ∧ ∀ (message : GStr) (tag : List GStr) (timestamp : GStr),
        Warning message tag timestamp = DefaultLogger.Warning message tag timestamp
        ∧ Message message tag timestamp = DefaultLogger.Message message tag timestamp
        ∧ Info message tag timestamp = DefaultLogger.Info message tag timestamp
        ∧ Error message tag timestamp = DefaultLogger.Error message tag timestamp
        ∧ Success message tag timestamp = DefaultLogger.Success message tag timestamp
        ∧ Ongoing message tag timestamp = DefaultLogger.Ongoing message tag timestamp :=
  ⟨rfl, fun _ _ _ => ⟨rfl, rfl, rfl, rfl, rfl, rfl⟩⟩

/-! ## Helper lemmas for the box renderer -/

theorem flatten_replicate_single (n : Nat) (c : Char) :
    List.flatten (List.replicate n [c]) = List.replicate n c := by
  induction n with
  | zero => rfl
  | succ k ih => simp [List.replicate_succ, ih]

theorem le_maxLineLength_foldl (lines : List GStr) :
    ∀ acc : Int,
      acc ≤ List.foldl
        (fun acc line => if (line.length : Int) > acc then (line.length : Int) else acc)
        acc lines := by
  induction lines with
  | nil => intro acc; simp
  | cons l ls ih =>
    intro acc
    refine le_trans ?_ (ih _)
    simp only []
    split <;> omega

theorem maxLineLength_nonneg (lines : List GStr) : 0 ≤ maxLineLength lines :=
  le_maxLineLength_foldl lines 0

theorem goRepeat_of_nonneg (s : GStr) (count : Int) (h : 0 ≤ count) :
    goRepeat s count = some (List.flatten (List.replicate count.toNat s)) := by
  unfold goRepeat
  rw [if_neg (by omega)]

/-- C6: confirmed.  When a non-empty tag is supplied and the padding is at
least 1, any successfully rendered box has: content width
`contentWidthOf = max (longest line) (tagLength + 4)` before padding; a top
border consisting of the left corner, then the tag with one space on each
side, then the full horizontal rule and right corner (the tag is inserted in
addition to, not in place of, border characters), so the top border is
`contentWidth + 2*padding + tagLength + 4` characters, strictly more than
`contentWidth + 2`; and a bottom border of `contentWidth + 2*padding + 2`
characters with no tag insertion. -/
theorem c6_tag_in_top_border (st : Bool) (pad : Int) (message tag timestamp : GStr)
    (out : List GStr) (hpad : 1 ≤ pad) (htag : tag ≠ [])
    (h : Logger.formatBoxLines { showTimestamp := st, padding := pad }
        message tag timestamp = some out) :
    out.head? = some (topLeft ++ (' ' :: tag ++ [' ']) ++
        List.replicate (contentWidthOf message tag + pad * 2).toNat '─' ++ topRight)
    ∧ (out.head?.map fun t => (t.length : Int))
        = some (contentWidthOf message tag + pad * 2 + 2 + ((tag.length : Int) + 2))
    ∧ out.getLast? = some (bottomLeft ++
        List.replicate (contentWidthOf message tag + pad * 2).toNat '─' ++ bottomRight)
    ∧ (out.getLast?.map fun b => (b.length : Int))
        = some (contentWidthOf message tag + pad * 2 + 2)
    ∧ contentWidthOf message tag + pad * 2 + 2 + ((tag.length : Int) + 2)
        > contentWidthOf message tag + 2 := by
  have hml := maxLineLength_nonneg (List.splitOn '\n' message)
  have htaglen : (0 : Int) ≤ (tag.length : Int) := by positivity
  have hcw_ge : (tag.length : Int) + 4 ≤ contentWidthOf message tag :=
    le_max_right _ _
  have hcw_nonneg : 0 ≤ contentWidthOf message tag + pad * 2 := by omega
  have hif :
      (if tag ≠ [] then
        if (tag.length : Int) + 4 > maxLineLength (List.splitOn '\n' message) then
          (tag.length : Int) + 4
        else maxLineLength (List.splitOn '\n' message)
      else maxLineLength (List.splitOn '\n' message)) = contentWidthOf message tag := by
    rw [if_pos htag, contentWidthOf, max_def]
    split <;> split <;> omega
  have hrep1 : goRepeat horizontal (contentWidthOf message tag + pad * 2)
      = some (List.replicate (contentWidthOf message tag + pad * 2).toNat '─') := by
    rw [horizontal, goRepeat_of_nonneg _ _ hcw_nonneg, flatten_replicate_single]
  have hrep2 : goRepeat [' '] pad
      = some (List.replicate pad.toNat ' ') := by
    rw [goRepeat_of_nonneg _ _ (by omega), flatten_replicate_single]
  have hif2 :
      (if (tag.length : Int) + 4 > maxLineLength (List.splitOn '\n' message) then
        (tag.length : Int) + 4
      else maxLineLength (List.splitOn '\n' message)) = contentWidthOf message tag := by
    rw [contentWidthOf, max_def]
    split <;> split <;> omega
  unfold Logger.formatBoxLines at h
  simp only [ne_eq, htag, not_false_eq_true, if_true, hif2, hrep1, hrep2, topLeft,
    List.singleton_append, goSplitN2] at h
  split at h
  case _ tsL msgL hts hms =>
    injection h with h
    subst h
    refine ⟨?_, ?_, ?_, ?_, by omega⟩
    · simp [topLeft, List.append_assoc]
    · simp [topLeft, topRight, List.append_assoc, Int.toNat_of_nonneg hcw_nonneg]
      omega
    · simp [List.getLast?_cons]
    · simp [List.getLast?_cons, bottomLeft, bottomRight,
        Int.toNat_of_nonneg hcw_nonneg]
      omega
  all_goals simp_all

/-- Witness for C6 at `showTimestamp = false`, `padding = 1`, message `hi`,
tag `TAG`: the rendered box is `["╭ TAG ─────────╮", "│ hi       │",
"╰─────────╯"]` and the borders have the stated shapes and lengths. -/
theorem c6_tag_in_top_border_witness :
    [gs "╭ TAG ─────────╮", gs "│ hi       │", gs "╰─────────╯"].head?
        = some (topLeft ++ (' ' :: gs "TAG" ++ [' ']) ++
          List.replicate (contentWidthOf (gs "hi") (gs "TAG") + 1 * 2).toNat '─' ++ topRight)
    ∧ (([gs "╭ TAG ─────────╮", gs "│ hi       │", gs "╰─────────╯"].head?).map
          fun t => (t.length : Int))
        = some (contentWidthOf (gs "hi") (gs "TAG") + 1 * 2 + 2
            + (((gs "TAG").length : Int) + 2))
    ∧ [gs "╭ TAG ─────────╮", gs "│ hi       │", gs "╰─────────╯"].getLast?
        = some (bottomLeft ++
          List.replicate (contentWidthOf (gs "hi") (gs "TAG") + 1 * 2).toNat '─' ++ bottomRight)
    ∧ (([gs "╭ TAG ─────────╮", gs "│ hi       │", gs "╰─────────╯"].getLast?).map
          fun b => (b.length : Int))
        = some (contentWidthOf (gs "hi") (gs "TAG") + 1 * 2 + 2)
    ∧ contentWidthOf (gs "hi") (gs "TAG") + 1 * 2 + 2 + (((gs "TAG").length : Int) + 2)
        > contentWidthOf (gs "hi") (gs "TAG") + 2 :=
  c6_tag_in_top_border false 1 (gs "hi") (gs "TAG") (gs "12:34:56")
    [gs "╭ TAG ─────────╮", gs "│ hi       │", gs "╰─────────╯"]
    (by decide) (by decide) (by decide)

/-! ## Structured-value renderers (src/log_dataStructures.go) -/

/-- The dynamically-typed values (`interface\x7b\x7d`) handled by the
structured-value renderers: text, machine integers, booleans, the nil
interface, string-keyed mappings, and sequences. -/
inductive GoVal where
  | vstr (s : GStr)
  | vint (n : Int)
  | vbool (b : Bool)
  | vnil
  | vmap (entries : List (GStr × GoVal))
  | vlist (items : List GoVal)

/-! `fmtV` models the `fmt` verb `%v` on the values above: text verbatim,
integers in decimal, booleans as `true`/`false`, the nil interface as
`<nil>`, sequences bracketed and space-separated.  (No renderer in this
package reaches `%v` on a mapping — mappings are always dispatched to a
dedicated case before a `%v` fallback — so the order of entries in the
`vmap` case below, delivery order rather than the sorted order Go's `fmt`
would use, is never observable.) -/
mutual

def fmtV (v : GoVal) : GStr :=
  match v with
  | .vstr s => s
  | .vint n => intChars n
  | .vbool b => if b then gs "true" else gs "false"
  | .vnil => gs "<nil>"
  | .vmap m => gs "map[" ++ fmtVEntries m ++ [']']
  | .vlist items => '[' :: fmtVItems items ++ [']']
termination_by (sizeOf v, 2)

def fmtVItems (items : List GoVal) : GStr :=
  match items with
  | [] => []
  | [x] => fmtV x
  | x :: rest => fmtV x ++ ' ' :: fmtVItems rest
termination_by (sizeOf items, 0)

def fmtVEntries (m : List (GStr × GoVal)) : GStr :=
  match m with
  | [] => []
  | [(k, w)] => k ++ ':' :: fmtV w
  | (k, w) :: rest => k ++ ':' :: fmtV w ++ ' ' :: fmtVEntries rest
termination_by (sizeOf m, 0)

end

/-! ### Flat renderer: `MapAsPrettyString` and `ValueAsString`
(src/log_dataStructures.go:70-114).  The Go loop builds the result with a
`first` flag that inserts `", "` before every entry except the first; the
loop is modelled by `mapEntriesAux`.  The pair list carries the key-value
pairs in the order the Go `range` loop delivers them (Go map iteration
order is unspecified and varies between runs). -/

mutual

def MapAsPrettyString (m : List (GStr × GoVal)) (beforeMessage : List GStr) : GStr :=
  let result := lbrace :: mapEntriesAux m true ++ [rbrace]
  match beforeMessage with
  | b :: _ => b ++ ' ' :: result
  | [] => result
termination_by (sizeOf m, 1)

def mapEntriesAux (m : List (GStr × GoVal)) (first : Bool) : GStr :=
  match m with
  | [] => []
  | (k, w) :: rest =>
    (if !first then gs ", " else []) ++ k ++ gs ": " ++ ValueAsString w
      ++ mapEntriesAux rest false
termination_by (sizeOf m, 0)

def ValueAsString (v : GoVal) : GStr :=
  match v with
  | .vstr s => '"' :: s ++ ['"']
  | .vint n => fmtV (.vint n)
  | .vbool b => fmtV (.vbool b)
  | .vmap m => MapAsPrettyString m []
  | w => fmtV w
termination_by (sizeOf v, 2)

end

/-- `ListAsPrettyString`'s element loop (src/log_dataStructures.go:133-141):
each element double-quoted verbatim, `", "` before every element except the
first. -/
def listEntriesAux (list : List GStr) (first : Bool) : GStr :=
  match list with
  | [] => []
  | v :: rest =>
    (if !first then gs ", " else []) ++ '"' :: v ++ ['"'] ++ listEntriesAux rest false

/-- `ListAsPrettyString` (src/log_dataStructures.go:132-148). -/
def ListAsPrettyString (list : List GStr) (beforeMessage : List GStr) : GStr :=
  let result := '[' :: listEntriesAux list true ++ [']']
  match beforeMessage with
  | b :: _ => b ++ ' ' :: result
  | [] => result

/-- `ListAsPrettyStringWithIndex`'s element loop
(src/log_dataStructures.go:167-175): `fmt.Sprintf("%d: \"%s\"", i+1, v)`
for the element at 0-based position `i`. -/
def listIdxEntriesAux (list : List GStr) (first : Bool) (i : Nat) : GStr :=
  match list with
  | [] => []
  | v :: rest =>
    (if !first then gs ", " else []) ++ natChars (i + 1) ++ gs ": " ++ '"' :: v ++ ['"']
      ++ listIdxEntriesAux rest false (i + 1)

/-- `ListAsPrettyStringWithIndex` (src/log_dataStructures.go:166-182). -/
def ListAsPrettyStringWithIndex (list : List GStr) (beforeMessage : List GStr) : GStr :=
  let result := '[' :: listIdxEntriesAux list true 0 ++ [']']
  match beforeMessage with
  | b :: _ => b ++ ' ' :: result
  | [] => result

/-- C9: confirmed.  For all three pretty-string operations, supplying
leading message fragments makes the result the first fragment, one space,
then the structural rendering (fragments beyond the first are ignored);
with no fragment the structural rendering is returned alone. -/
theorem c9_before_message_first_fragment
    (m : List (GStr × GoVal)) (list : List GStr) (b : GStr) (rest : List GStr) :
    MapAsPrettyString m (b :: rest) = b ++ ' ' :: MapAsPrettyString m []
    ∧ ListAsPrettyString list (b :: rest) = b ++ ' ' :: ListAsPrettyString list []
    ∧ ListAsPrettyStringWithIndex list (b :: rest)
        = b ++ ' ' :: ListAsPrettyStringWithIndex list [] := by
  refine ⟨?_, ?_, ?_⟩
  · simp [MapAsPrettyString]
  · simp [ListAsPrettyString]
  · simp [ListAsPrettyStringWithIndex]

/-- C10: confirmed.  `ValueAsString` wraps any text value in double quotes
with the text itself unchanged (no escaping of embedded quotes, backslashes
or line breaks), `ListAsPrettyString` quotes elements the same verbatim way,
and this makes outputs ambiguous: the two distinct lists
`["a\", \"b"]` and `["a", "b"]` render to the same string. -/
theorem c10_unescaped_quoting :
    (∀ s : GStr, ValueAsString (.vstr s) = '"' :: s ++ ['"'])
    ∧ (∀ s : GStr, ListAsPrettyString [s] [] = '[' :: '"' :: s ++ gs "\"]")
    ∧ ListAsPrettyString [gs "a\", \"b"] [] = ListAsPrettyString [gs "a", gs "b"] []
    ∧ [gs "a\", \"b"] ≠ [gs "a", gs "b"] := by
  refine ⟨fun s => ?_, fun s => ?_, by decide, by decide⟩
  · simp [ValueAsString]
  · simp [ListAsPrettyString, listEntriesAux, gs]

/-- C3 counterexample: the two delivery orders of the same two-entry mapping
(they are permutations of one another, i.e. equal as mappings) produce
different strings, so byte-identical output across invocations is not
guaranteed by the code — Go map iteration order is unspecified. -/
theorem c3_order_counterexample :
    [(gs "a", GoVal.vint 1), (gs "b", GoVal.vint 2)].Perm
        [(gs "b", GoVal.vint 2), (gs "a", GoVal.vint 1)]
    ∧ MapAsPrettyString [(gs "a", GoVal.vint 1), (gs "b", GoVal.vint 2)] []
        ≠ MapAsPrettyString [(gs "b", GoVal.vint 2), (gs "a", GoVal.vint 1)] [] := by
  constructor
  · exact List.Perm.swap _ _ _
  · have h1 : MapAsPrettyString [(gs "a", GoVal.vint 1), (gs "b", GoVal.vint 2)] []
        = gs "\x7ba: 1, b: 2\x7d" := by
      simp [MapAsPrettyString, mapEntriesAux, ValueAsString, fmtV, intChars, gs,
        lbrace, rbrace]
      decide
    have h2 : MapAsPrettyString [(gs "b", GoVal.vint 2), (gs "a", GoVal.vint 1)] []
        = gs "\x7bb: 2, a: 1\x7d" := by
      simp [MapAsPrettyString, mapEntriesAux, ValueAsString, fmtV, intChars, gs,
        lbrace, rbrace]
      decide
    rw [h1, h2]
    decide

theorem mapEntriesAux_false_eq (m : List (GStr × GoVal)) :
    mapEntriesAux m false
      = List.flatten (m.map fun kv => gs ", " ++ kv.1 ++ gs ": " ++ ValueAsString kv.2) := by
  induction m with
  | nil => simp [mapEntriesAux]
  | cons kv rest ih =>
    cases kv
    simp [mapEntriesAux, ih]

theorem joinSep_cons_flatten (sep x : GStr) (xs : List GStr) :
    joinSep sep (x :: xs) = x ++ List.flatten (xs.map fun y => sep ++ y) := by
  induction xs generalizing x with
  | nil => simp [joinSep]
  | cons y ys ih => simp [joinSep, ih]

/-- C3 amended: `MapAsPrettyString` is a pure function of the key-value
sequence the `range` loop delivers — equal delivery sequences give
byte-identical output — and it emits the pairs exactly in delivery order,
one `key: value` entry each, comma-space separated inside braces; but since
Go leaves map iteration order unspecified, equal mappings delivered in
different orders give different strings (see the counterexample). -/
theorem c3_amended_delivery_order (m : List (GStr × GoVal)) :
    MapAsPrettyString m []
      = lbrace :: joinSep (gs ", ")
          (m.map fun kv => kv.1 ++ gs ": " ++ ValueAsString kv.2) ++ [rbrace] := by
  cases m with
  | nil => simp [MapAsPrettyString, mapEntriesAux, joinSep]
  | cons kv rest =>
    cases kv
    simp [MapAsPrettyString, mapEntriesAux, joinSep_cons_flatten, mapEntriesAux_false_eq]
    simp [Function.comp_def]

/-! ## Tree renderer: `PrintMapWithIndent` (src/log_dataStructures.go:200-231) -/

/-- Go map indexing `m[k]` over the delivered pair list: the value of the
first pair whose key is `k`, or the zero value (the nil interface) when no
key matches (that fallback is unreachable when `k` comes from the map's own
key set). -/
def mapIndex : List (GStr × GoVal) → GStr → GoVal
  | [], _ => .vnil
  | (a, b) :: t, k => if k = a then b else mapIndex t k

theorem sizeOf_mapIndex_le (m : List (GStr × GoVal)) (k : GStr) :
    sizeOf (mapIndex m k) ≤ sizeOf m := by
  induction m with
  | nil => simp [mapIndex]
  | cons p t ih =>
    obtain ⟨a, b⟩ := p
    simp only [mapIndex]
    split
    · simp
      omega
    · simp
      omega

/-- The key sort of `PrintMapWithIndent` (src/log_dataStructures.go:202-206):
`sort.Strings` sorts the collected keys into ascending lexicographic order. -/
def sortStrings (keys : List GStr) : List GStr :=
  List.insertionSort (fun a b => a ≤ b) keys

theorem prodLex3_le_left {a b : Nat} {p q : Nat × Nat} (h1 : a ≤ b)
    (h2 : Prod.Lex (fun x y : Nat => x < y) (fun x y : Nat => x < y) p q) :
    Prod.Lex (fun x y : Nat => x < y)
      (Prod.Lex (fun x y : Nat => x < y) (fun x y : Nat => x < y)) (a, p) (b, q) := by
  rcases lt_or_eq_of_le h1 with h | h
  · exact Prod.Lex.left _ _ h
  · subst h
    exact Prod.Lex.right _ h2

mutual

def PrintMapWithIndent (m : List (GStr × GoVal)) (indent : GStr) : GStr :=
  printKeys m (sortStrings (m.map Prod.fst)) indent
termination_by (sizeOf m, 2, 0)

def printKeys (m : List (GStr × GoVal)) (keys : List GStr) (indent : GStr) : GStr :=
  match keys with
  | [] => []
  | k :: rest => printEntry k (mapIndex m k) indent ++ printKeys m rest indent
termination_by (sizeOf m, 1, keys.length)
decreasing_by
· exact prodLex3_le_left (sizeOf_mapIndex_le _ _) (Prod.Lex.left _ _ (by omega))
· exact Prod.Lex.right _ (Prod.Lex.right _ (by simp))

def printEntry (k : GStr) (v : GoVal) (indent : GStr) : GStr :=
  match v with
  | .vmap value =>
    indent ++ k ++ gs ": \x7b\n" ++ PrintMapWithIndent value (indent ++ gs "  ")
      ++ indent ++ gs "\x7d\n"
  | .vlist items =>
    indent ++ k ++ gs ": [\n" ++ printItems items indent 0 ++ indent ++ gs "]\n"
  | w => indent ++ k ++ gs ": " ++ fmtV w ++ gs "\n"
termination_by (sizeOf v, 0, 0)

def printItems (items : List GoVal) (indent : GStr) (i : Nat) : GStr :=
  match items with
  | [] => []
  | GoVal.vmap nestedMap :: rest =>
    indent ++ gs "  [" ++ natChars i ++ gs "]: \x7b\n"
      ++ PrintMapWithIndent nestedMap (indent ++ gs "    ")
      ++ indent ++ gs "  \x7d\n" ++ printItems rest indent (i + 1)
  | item :: rest =>
    indent ++ gs "  [" ++ natChars i ++ gs "]: " ++ fmtV item ++ gs "\n"
      ++ printItems rest indent (i + 1)
termination_by (sizeOf items, 3, 0)

end

theorem sortStrings_perm_eq {l l' : List GStr} (h : l.Perm l') :
    sortStrings l = sortStrings l' := by
  unfold sortStrings
  exact List.eq_of_perm_of_sorted
    ((List.perm_insertionSort _ l).trans (h.trans (List.perm_insertionSort _ l').symm))
    (List.sorted_insertionSort _ l) (List.sorted_insertionSort _ l')

theorem mapIndex_perm {m m' : List (GStr × GoVal)} (h : m.Perm m') (k : GStr) :
    (m.map Prod.fst).Nodup → mapIndex m k = mapIndex m' k := by
  induction h with
  | nil => intro _; rfl
  | cons x h ih =>
    intro hn
    cases x with
    | mk a b =>
      simp only [mapIndex]
      split
      · rfl
      · refine ih ?_
        simp only [List.map_cons, List.nodup_cons] at hn
        exact hn.2
  | swap x y l =>
    intro hn
    cases x with
    | mk a b =>
      cases y with
      | mk c d =>
        simp only [List.map_cons, List.nodup_cons, List.mem_cons] at hn
        have hne : c ≠ a := fun hca => hn.1 (Or.inl hca)
        by_cases h1 : k = c
        · have h2 : ¬ k = a := fun h2 => hne (h1.symm.trans h2)
          simp [mapIndex, h1, h2, hne]
        · by_cases h2 : k = a
          · simp [mapIndex, h1, h2]
            exact fun hac => absurd hac.symm hne
          · simp [mapIndex, h1, h2]
  | trans h1 h2 ih1 ih2 =>
    intro hn
    exact (ih1 hn).trans (ih2 ((h1.map Prod.fst).nodup hn))

theorem printKeys_congr {m m' : List (GStr × GoVal)}
    (hmk : ∀ k, mapIndex m k = mapIndex m' k) (keys : List GStr) (indent : GStr) :
    printKeys m keys indent = printKeys m' keys indent := by
  induction keys with
  | nil => simp [printKeys]
  | cons k rest ih =>
    simp only [printKeys]
    rw [hmk k, ih]

theorem printMap_perm_invariant {m m' : List (GStr × GoVal)} (h : m.Perm m')
    (hn : (m.map Prod.fst).Nodup) (indent : GStr) :
    PrintMapWithIndent m indent = PrintMapWithIndent m' indent := by
  simp only [PrintMapWithIndent]
  rw [sortStrings_perm_eq (h.map Prod.fst)]
  exact printKeys_congr (fun k => mapIndex_perm h k hn) _ _

/-- C5: confirmed.  `PrintMapWithIndent` (a) renders via the sorted key list
(which is sorted ascending), (b) produces output that depends only on the
mapping content, not on the iteration order the `range` loop happens to
deliver (any permutation of a duplicate-free pair list renders identically),
and (c) on the spec's example — inserted with `scores` before `name` —
emits top-level and nested keys alphabetically, nested brace blocks with
two-space indentation increments, and the sequence as a bracket block with
0-based indices. -/
theorem c5_tree_renderer :
    (∀ (m m' : List (GStr × GoVal)) (indent : GStr),
        m.Perm m' → (m.map Prod.fst).Nodup →
        PrintMapWithIndent m indent = PrintMapWithIndent m' indent)
    ∧ (∀ (m : List (GStr × GoVal)) (indent : GStr),
        PrintMapWithIndent m indent = printKeys m (sortStrings (m.map Prod.fst)) indent
        ∧ List.Sorted (fun a b : GStr => a ≤ b) (sortStrings (m.map Prod.fst)))
    ∧ PrintMapWithIndent
        [(gs "user", .vmap [(gs "scores", .vlist [.vint 95, .vint 87, .vint 92]),
          (gs "name", .vstr (gs "John"))])] []
      = gs "user: \x7b\n  name: John\n  scores: [\n    [0]: 95\n    [1]: 87\n    [2]: 92\n  ]\n\x7d\n" := by
  refine ⟨fun m m' indent h hn => printMap_perm_invariant h hn indent,
    fun m indent => ⟨by simp [PrintMapWithIndent], List.sorted_insertionSort _ _⟩, ?_⟩
  have hs1 : sortStrings [gs "user"] = [gs "user"] := by decide
  have hs2 : sortStrings [gs "scores", gs "name"] = [gs "name", gs "scores"] := by decide
  have hm1 : mapIndex
      [(gs "user", GoVal.vmap [(gs "scores", GoVal.vlist [.vint 95, .vint 87, .vint 92]),
        (gs "name", GoVal.vstr (gs "John"))])] (gs "user")
      = GoVal.vmap [(gs "scores", GoVal.vlist [.vint 95, .vint 87, .vint 92]),
        (gs "name", GoVal.vstr (gs "John"))] := by rfl
  have hm2 : mapIndex [(gs "scores", GoVal.vlist [.vint 95, .vint 87, .vint 92]),
        (gs "name", GoVal.vstr (gs "John"))] (gs "name") = GoVal.vstr (gs "John") := by rfl
  have hm3 : mapIndex [(gs "scores", GoVal.vlist [.vint 95, .vint 87, .vint 92]),
        (gs "name", GoVal.vstr (gs "John"))] (gs "scores")
      = GoVal.vlist [.vint 95, .vint 87, .vint 92] := by rfl
  simp only [PrintMapWithIndent, List.map_cons, List.map_nil, hs1, hs2, hm1, hm2, hm3,
    printKeys, printEntry, printItems, fmtV]
  decide

/-- Witness for C5's permutation-invariance branch: the two delivery orders
of a two-entry mapping render identically. -/
theorem c5_tree_renderer_witness :
    PrintMapWithIndent [(gs "x", GoVal.vint 2), (gs "y", GoVal.vint 1)] []
      = PrintMapWithIndent [(gs "y", GoVal.vint 1), (gs "x", GoVal.vint 2)] [] :=
  c5_tree_renderer.1 _ _ [] (List.Perm.swap _ _ _) (by decide)

/-- C4 counterexample: in the tree renderer a text scalar reaches final text
unquoted — `PrintMapWithIndent` on the mapping `k ↦ "v"` emits `k: v`,
not the double-quoted `k: "v"` that `ValueAsString` produces and the claimed
uniform rule requires. -/
theorem c4_tree_unquoted_counterexample :
    PrintMapWithIndent [(gs "k", GoVal.vstr (gs "v"))] [] = gs "k: v\n"
    ∧ gs "k: v\n" ≠ gs "k: " ++ ValueAsString (GoVal.vstr (gs "v")) ++ gs "\n" := by
  constructor
  · have hs : sortStrings [gs "k"] = [gs "k"] := by decide
    have hm : mapIndex [(gs "k", GoVal.vstr (gs "v"))] (gs "k") = GoVal.vstr (gs "v") := rfl
    simp only [PrintMapWithIndent, List.map_cons, List.map_nil, hs, hm, printKeys,
      printEntry, fmtV]
    decide
  · have h : ValueAsString (GoVal.vstr (gs "v")) = '"' :: gs "v" ++ ['"'] := by
      simp [ValueAsString]
    rw [h]
    decide

/-- C4 amended: the quoting rule holds in the flat renderer — `ValueAsString`
wraps text in double quotes and renders integers and booleans unquoted in
their decimal/true-false form — but the tree renderer applies no quoting:
`PrintMapWithIndent` emits every scalar, text included, in its default `%v`
form. -/
theorem c4_amended_flat_only :
    (∀ s : GStr, ValueAsString (.vstr s) = '"' :: s ++ ['"'])
    ∧ (∀ n : Int, ValueAsString (.vint n) = intChars n)
    ∧ (∀ b : Bool, ValueAsString (.vbool b) = if b then gs "true" else gs "false")
    ∧ (∀ (k s indent : GStr),
        PrintMapWithIndent [(k, .vstr s)] indent
          = indent ++ k ++ gs ": " ++ s ++ gs "\n") := by
  refine ⟨fun s => by simp [ValueAsString], fun n => by simp [ValueAsString, fmtV],
    fun b => by simp [ValueAsString, fmtV], fun k s indent => ?_⟩
  have hs : sortStrings [k] = [k] := by
    simp [sortStrings, List.insertionSort]
  have hm : mapIndex [(k, GoVal.vstr s)] k = GoVal.vstr s := by
    simp [mapIndex]
  simp only [PrintMapWithIndent, List.map_cons, List.map_nil, hs, hm, printKeys,
    printEntry, fmtV]
  simp
